import Mathlib

/-!
Verification of the mysql2sqlite converter (src/main.rs) against its
natural-language specification.  The program is shallowly embedded:
strings are `List Char`, fallible operations return `Except`/`Option`,
and the stateful dump-reassembly loop is explicit state passing.
-/

set_option maxHeartbeats 1000000

/-- Convert a string literal to the character-list representation used by
the embedding. -/
def strL (s : String) : List Char := s.toList

/-- Whitespace test matching the characters relevant to SQL dumps
(Rust `char::is_whitespace` on the ASCII subset the program sees). -/
def isWS (c : Char) : Bool := c == ' ' || c == '\t' || c == '\n' || c == '\r'

/-- ASCII uppercase of one character (model of Rust `str::to_uppercase`
on the ASCII SQL text the program processes). -/
def upChar (c : Char) : Char :=
  if 97 ≤ c.toNat ∧ c.toNat ≤ 122 then Char.ofNat (c.toNat - 32) else c

/-- ASCII lowercase of one character (model of Rust `str::to_lowercase`). -/
def lowChar (c : Char) : Char :=
  if 65 ≤ c.toNat ∧ c.toNat ≤ 90 then Char.ofNat (c.toNat + 32) else c

/-- Uppercase a whole line. -/
def upperStr (l : List Char) : List Char := l.map upChar

/-- Lowercase a whole line. -/
def lowerStr (l : List Char) : List Char := l.map lowChar

/-- Boolean "is p a prefix of l" (Rust `str::starts_with`). -/
def isPrefixList : List Char → List Char → Bool
  | [], _ => true
  | _ :: _, [] => false
  | a :: as_, b :: bs => a == b && isPrefixList as_ bs

/-- Boolean substring test (Rust `str::contains`). -/
def containsSub : List Char → List Char → Bool
  | [], pat => isPrefixList pat []
  | l@(_ :: rest), pat => isPrefixList pat l || containsSub rest pat

/-- Index of the first occurrence of `pat` (Rust `str::find`); on the ASCII
text processed here byte indices and character indices coincide. -/
def findSub (pat : List Char) : List Char → Option Nat
  | [] => if isPrefixList pat [] then some 0 else none
  | c :: rest =>
    if isPrefixList pat (c :: rest) then some 0
    else (findSub pat rest).map (· + 1)

/-- Index of the last occurrence of character `c` (Rust `str::rfind(')')`). -/
def rfindChar (c : Char) : List Char → Option Nat
  | [] => none
  | x :: rest =>
    match rfindChar c rest with
    | some i => some (i + 1)
    | none => if x == c then some 0 else none

/-- Rust `str::trim_start`. -/
def trimStart (l : List Char) : List Char := l.dropWhile isWS

/-- Rust `str::trim_end`. -/
def trimEnd (l : List Char) : List Char := (l.reverse.dropWhile isWS).reverse

/-- Rust `str::trim`. -/
def trimBoth (l : List Char) : List Char := trimStart (trimEnd l)

/-- Rust `str::trim_end_matches(',')`: strip every trailing comma. -/
def trimEndCommas (l : List Char) : List Char :=
  (l.reverse.dropWhile (· == ',')).reverse

/-- Does the line end with character `c` (Rust `str::ends_with`)? -/
def endsWithChar (l : List Char) (c : Char) : Bool :=
  match l.getLast? with
  | some x => x == c
  | none => false

/-- Rust `l.trim_end().ends_with(',')`, the trailing-comma test of the
Schema Translator. -/
def hasTrailingComma (l : List Char) : Bool := endsWithChar (trimEnd l) ','

/-- Worker for `replaceAll`: scan the text left to right; `skip` counts
characters still to consume from an already-matched occurrence. -/
def raGo (pat rep : List Char) : List Char → Nat → List Char
  | [], _ => []
  | c :: rest, 0 =>
    if !pat.isEmpty && isPrefixList pat (c :: rest) then
      rep ++ raGo pat rep rest (pat.length - 1)
    else c :: raGo pat rep rest 0
  | _ :: rest, skip + 1 => raGo pat rep rest skip

/-- Rust `str::replace`: replace every leftmost non-overlapping occurrence
of `pat` by `rep`. -/
def replaceAll (pat rep l : List Char) : List Char := raGo pat rep l 0

/-- Configuration struct delivered by the (out of scope) CLI layer; default
values mirror the clap defaults in `Args`. -/
structure Args where
  host : String := "localhost"
  port : Nat := 3306
  user : String := "root"
  password : Option String := none
  database : Option String := none
  includeTables : List String := []
  excludeTables : List String := []
  jsonAsText : Bool := true
deriving DecidableEq

/-- Model of `should_skip_table` (src/main.rs lines 129-137). -/
def shouldSkipTable (args : Args) (table : String) : Bool :=
  if !args.includeTables.isEmpty && !(args.includeTables.contains table) then true
  else if args.excludeTables.contains table then true
  else false

/-- The MySQL connection options assembled before `Pool::new`
(`mysql::OptsBuilder`, fields touched by src/main.rs lines 262-272). -/
structure MySqlOpts where
  host : Option String := none
  port : Nat := 3306
  user : Option String := none
  pass : Option String := none
  dbName : Option String := none
deriving DecidableEq

/-- Model of `mysql::OptsBuilder::new()`. -/
def optsBuilderNew : MySqlOpts := {}

/-- Rust `Clone::clone` on the builder: a fresh copy of the value. -/
def cloneOpts (o : MySqlOpts) : MySqlOpts := o

/-- Setter `OptsBuilder::ip_or_hostname`, consuming its receiver. -/
def ipOrHostname (o : MySqlOpts) (h : Option String) : MySqlOpts := { o with host := h }

/-- Setter `OptsBuilder::tcp_port`, consuming its receiver. -/
def tcpPort (o : MySqlOpts) (p : Nat) : MySqlOpts := { o with port := p }

/-- Setter `OptsBuilder::user`, consuming its receiver. -/
def setUser (o : MySqlOpts) (u : Option String) : MySqlOpts := { o with user := u }

/-- Setter `OptsBuilder::pass`, consuming its receiver. -/
def setPass (o : MySqlOpts) (p : Option String) : MySqlOpts := { o with pass := p }

/-- Setter `OptsBuilder::db_name`, consuming its receiver. -/
def setDbName (o : MySqlOpts) (d : Option String) : MySqlOpts := { o with dbName := d }

/-- The options handed to `Pool::new` by `convert_remote` (src/main.rs
lines 262-274): each setter is invoked on `builder.clone()` and the
returned value is discarded, then the untouched `builder` is passed on. -/
def buildPoolOpts (args : Args) : MySqlOpts :=
  let builder := optsBuilderNew
  let _ := ipOrHostname (cloneOpts builder) (some args.host)
  let _ := tcpPort (cloneOpts builder) args.port
  let _ := setUser (cloneOpts builder) (some args.user)
  let _ :=
    match args.password with
    | some p => some (setPass (cloneOpts builder) (some p))
    | none => none
  let _ :=
    match args.database with
    | some d => some (setDbName (cloneOpts builder) (some d))
    | none => none
  builder

/-- SQLite storage classes produced by the Type Mapper (closed set). -/
inductive StorageClass
  | integer
  | text
  | blob
deriving DecidableEq

/-- Type Mapper of `convert_remote` (src/main.rs lines 291-299). -/
def sqliteType (ty : List Char) (jsonAsText : Bool) : StorageClass :=
  if isPrefixList (strL "int") (lowerStr ty) then .integer
  else if isPrefixList (strL "varchar") (lowerStr ty)
      || isPrefixList (strL "text") (lowerStr ty) then .text
  else if isPrefixList (strL "json") (lowerStr ty) && jsonAsText then .text
  else .blob

/-- Modelled from the spec: the Type Mapper contract of section 4.4, stated
case by case in the order the spec lists, for comparison with the source mapper. -/
def specTypeMap (ty : List Char) (jsonAsText : Bool) : StorageClass :=
  if isPrefixList (strL "int") (lowerStr ty) then .integer
  else if isPrefixList (strL "varchar") (lowerStr ty)
      || isPrefixList (strL "text") (lowerStr ty) then .text
  else if isPrefixList (strL "json") (lowerStr ty) then
    (if jsonAsText then .text else .blob)
  else .blob

/-- Uninterpreted carrier for the f32/f64 payloads the program merely
forwards (it never inspects or computes with them). -/
structure FloatRep where
  bits : Nat
deriving DecidableEq

/-- Destination-side values (`rusqlite::types::Value`). -/
inductive RValue
  | null
  | integer (i : Int)
  | real (f : FloatRep)
  | text (s : List Char)
  | blob (bs : List Nat)
deriving DecidableEq

/-- Source-side runtime values (`mysql::Value`). -/
inductive MyValue
  | bytes (bs : List Nat)
  | null
  | int (i : Int)
  | uint (u : Nat)
  | float (f : FloatRep)
  | double (f : FloatRep)
  | date (y mo d h mi s micro : Nat)
  | time (neg : Bool) (d h mi s micro : Nat)
deriving DecidableEq

/-- UTF-8 continuation byte test. -/
def isCont (b : Nat) : Bool := 0x80 ≤ b && b ≤ 0xBF

/-- Valid range of the second byte of a multi-byte UTF-8 sequence, given
the leading byte (excludes overlong forms, surrogates, and values beyond
U+10FFFF, exactly as the Rust function `std::str::from_utf8` does). -/
def validB2 (b b2 : Nat) : Bool :=
  if b == 0xE0 then 0xA0 ≤ b2 && b2 ≤ 0xBF
  else if b == 0xED then 0x80 ≤ b2 && b2 ≤ 0x9F
  else if b == 0xF0 then 0x90 ≤ b2 && b2 ≤ 0xBF
  else if b == 0xF4 then 0x80 ≤ b2 && b2 ≤ 0x8F
  else isCont b2

/-- UTF-8 decoding of a byte sequence (the validation and decoding done by
`std::str::from_utf8`): `none` exactly on invalid UTF-8. -/
def utf8Decode : List Nat → Option (List Char)
  | [] => some []
  | b :: rest =>
    if b ≤ 0x7F then (utf8Decode rest).map (fun s => Char.ofNat b :: s)
    else if 0xC2 ≤ b && b ≤ 0xDF then
      match rest with
      | b2 :: r2 =>
        if isCont b2 then
          (utf8Decode r2).map (fun s => Char.ofNat ((b - 0xC0) * 64 + (b2 - 0x80)) :: s)
        else none
      | [] => none
    else if 0xE0 ≤ b && b ≤ 0xEF then
      match rest with
      | b2 :: b3 :: r3 =>
        if validB2 b b2 && isCont b3 then
          (utf8Decode r3).map
            (fun s => Char.ofNat ((b - 0xE0) * 4096 + (b2 - 0x80) * 64 + (b3 - 0x80)) :: s)
        else none
      | _ => none
    else if 0xF0 ≤ b && b ≤ 0xF4 then
      match rest with
      | b2 :: b3 :: b4 :: r4 =>
        if validB2 b b2 && isCont b3 && isCont b4 then
          (utf8Decode r4).map
            (fun s =>
              Char.ofNat
                ((b - 0xF0) * 262144 + (b2 - 0x80) * 4096 + (b3 - 0x80) * 64 + (b4 - 0x80)) :: s)
        else none
      | _ => none
    else none

/-- Cast `u as i64`: reinterpret an unsigned 64-bit value as signed. -/
def u64AsI64 (u : Nat) : Int :=
  if u % 2 ^ 64 < 2 ^ 63 then ((u % 2 ^ 64 : Nat) : Int)
  else ((u % 2 ^ 64 : Nat) : Int) - 2 ^ 64

/-- Decimal digit character. -/
def digitChar (n : Nat) : Char := Char.ofNat (48 + n)

/-- Decimal digits of `n` (most significant first), with structural fuel. -/
def digitsAux : Nat → Nat → List Char
  | 0, _ => []
  | _ + 1, 0 => []
  | fuel + 1, n + 1 => digitsAux fuel ((n + 1) / 10) ++ [digitChar ((n + 1) % 10)]

/-- Decimal rendering of a natural number. -/
def natStr (n : Nat) : List Char := if n = 0 then ['0'] else digitsAux n n

/-- Zero-pad to a minimum width, as the zero-filled Rust format specifiers
with a zero fill do. -/
def padNum (w n : Nat) : List Char :=
  List.replicate (w - (natStr n).length) '0' ++ natStr n

/-- The date formatting of the Value Coercer (src/main.rs line 334): the
format string pads year to 4, month/day/hour/minute/second to 2 and the
fractional field to 3 digits with zeros. -/
def fmtDateTime (y mo d h mi s micro : Nat) : List Char :=
  padNum 4 y ++ strL "-" ++ padNum 2 mo ++ strL "-" ++ padNum 2 d ++ strL " "
    ++ padNum 2 h ++ strL ":" ++ padNum 2 mi ++ strL ":" ++ padNum 2 s ++ strL "."
    ++ padNum 3 micro

/-- Value Coercer (src/main.rs lines 322-338).  The source calls
`std::str::from_utf8(..).unwrap()` on the byte-string variant: on invalid
UTF-8 no value is produced and the coercion fails, modelled as
`Except.error`. -/
def coerceValue : MyValue → Except Unit RValue
  | .bytes bs =>
    match utf8Decode bs with
    | some s => .ok (.text s)
    | none => .error ()
  | .null => .ok .null
  | .int i => .ok (.integer i)
  | .uint u => .ok (.integer (u64AsI64 u))
  | .float f => .ok (.real f)
  | .double f => .ok (.real f)
  | .date y mo d h mi s micro => .ok (.text (fmtDateTime y mo d h mi s micro))
  | .time _ _ _ _ _ _ => .ok .null

/-- One table cell as fetched by `row.get(idx)` (src/main.rs lines 323-328):
an absent cell and an explicit NULL both coerce to the destination NULL. -/
def coerceCell : Option MyValue → Except Unit RValue
  | none => .ok .null
  | some v => coerceValue v

/-- Dump-mode execution loop over the reassembled statements (src/main.rs
lines 251-255): every statement is handed to `execute_batch`; a failure is
logged together with the statement and the loop moves on.  The returned
list records each attempted statement with its outcome. -/
def runDumpStatements {S E : Type} (exec : S → Except E Unit) : List S → List (S × Except E Unit)
  | [] => []
  | s :: rest =>
    match exec s with
    | .ok u => (s, .ok u) :: runDumpStatements exec rest
    | .error e => (s, .error e) :: runDumpStatements exec rest

/-- Live-mode per-row insertion loop (src/main.rs lines 318-342): the
source writes `stmt.execute(..)?`, so the first failing insert propagates
its error and ends the loop.  Returns the rows for which an insert was
attempted, and the propagated error if any. -/
def runLiveInserts {R E : Type} (ins : R → Except E Unit) : List R → List R × Option E
  | [] => ([], none)
  | r :: rest =>
    match ins r with
    | .ok _ =>
      let p := runLiveInserts ins rest
      (r :: p.1, p.2)
    | .error e => ([r], some e)

/-- Directive classification of one dump line (src/main.rs lines 146-163):
after left-trimming, an empty line or one starting with a noise prefix is
discarded before it can reach the statement buffer. -/
def isNoiseLine (line : List Char) : Bool :=
  let t := trimStart line
  t.isEmpty || isPrefixList (strL "--") t || isPrefixList (strL "/*") t
    || isPrefixList (strL "LOCK TABLES") t || isPrefixList (strL "UNLOCK TABLES") t
    || isPrefixList (strL "SET ") t || isPrefixList (strL "DELIMITER ") t
    || isPrefixList (strL "START TRANSACTION") t || isPrefixList (strL "COMMIT") t
    || isPrefixList (strL "ROLLBACK") t || isPrefixList (strL "USE ") t
    || isPrefixList (strL "CREATE DATABASE") t || isPrefixList (strL "CREATE SCHEMA") t
    || isPrefixList (strL "DROP DATABASE") t || isPrefixList (strL "/*!") t

/-- Number of occurrences of a character. -/
def countChar (c : Char) (l : List Char) : Nat := (l.filter (· == c)).length

/-- The single-quote character. -/
def quoteChar : Char := Char.ofNat 39

/-- Inline comment stripping (src/main.rs lines 166-177): truncate at the
first "--" when the count of single quotes before it is even. -/
def stripInline (line : List Char) : List Char :=
  match findSub (strL "--") line with
  | some idx =>
    let before := line.take idx
    if countChar quoteChar before % 2 == 0 then before else line
  | none => line

/-- One step of the Dump Reassembler (src/main.rs lines 144-181): noise
lines are dropped; otherwise the comment-stripped line plus a newline is
appended to the statement buffer, and when the left-trimmed original line
ends with a semicolon the trimmed buffer is emitted and the buffer
cleared. -/
def processLine (buf line : List Char) : List Char × Option (List Char) :=
  if isNoiseLine line then (buf, none)
  else
    let l := stripInline line
    let buf' := buf ++ l ++ ['\n']
    if endsWithChar (trimStart line) ';' then ([], some (trimBoth buf'))
    else (buf', none)

/-- The Dump Reassembler run over a list of lines: the statements emitted,
starting from the given buffer. -/
def runLines : List Char → List (List Char) → List (List Char)
  | _, [] => []
  | buf, line :: rest =>
    Option.elim (processLine buf line).2
      (runLines (processLine buf line).1 rest)
      (fun stmt => stmt :: runLines [] rest)

/-- The token AUTO_INCREMENT. -/
def aiTok : List Char := strL "AUTO_INCREMENT"

/-- The token PRIMARY KEY. -/
def pkTok : List Char := strL "PRIMARY KEY"

/-- The token AUTOINCREMENT. -/
def aincTok : List Char := strL "AUTOINCREMENT"

/-- The token UNSIGNED. -/
def unsTok : List Char := strL "UNSIGNED"

/-- The token COMMENT. -/
def cmtTok : List Char := strL "COMMENT"

/-- The text appended to a column that had AUTO_INCREMENT but no
PRIMARY KEY. -/
def pkaiApp : List Char := strL " PRIMARY KEY AUTOINCREMENT"

/-- The text appended to a column that had AUTO_INCREMENT and PRIMARY KEY
but no AUTOINCREMENT. -/
def aincApp : List Char := strL " AUTOINCREMENT"

/-- The AUTO_INCREMENT rewrite of one line of a CREATE TABLE statement
(src/main.rs lines 201-217).  `upper` is the uppercased trimmed line the
source computed once at line 192; the detection tests run on `upper` while
`replace` runs on the original line `l`, so only the uppercase spelling of
the token is actually removed. -/
def autoIncStep (upper l : List Char) : List Char :=
  if containsSub upper aiTok then
    let hasComma := hasTrailingComma l
    let l1 := replaceAll aiTok [] l
    if !(containsSub upper pkTok) then
      let l2 := trimEndCommas l1 ++ pkaiApp
      if hasComma then l2 ++ [','] else l2
    else if !(containsSub upper aincTok) then
      let l2 := trimEndCommas l1 ++ aincApp
      if hasComma then l2 ++ [','] else l2
    else l1
  else l

/-- The UNSIGNED removal of one line (src/main.rs lines 219-221): detection
on `upper`, replacement of the uppercase literal on the line itself. -/
def unsignedStep (upper l : List Char) : List Char :=
  if containsSub upper unsTok then replaceAll unsTok [] l else l

/-- The COMMENT truncation of one line (src/main.rs lines 223-229): the
index found in `upper` (the uppercased left-trimmed line) is used to
truncate the untrimmed line, and a trailing comma is preserved. -/
def commentStep (upper l : List Char) : List Char :=
  match findSub cmtTok upper with
  | some pos =>
    let hasComma := hasTrailingComma l
    let l1 := l.take pos
    if hasComma then l1 ++ [','] else l1
  | none => l

/-- Per-line cleaning of a CREATE TABLE statement (src/main.rs lines
190-231): key/constraint declaration lines are dropped, the remaining
lines go through the AUTO_INCREMENT, UNSIGNED and COMMENT rewrites. -/
def cleanLine (l : List Char) : Option (List Char) :=
  let t := trimStart l
  let upper := upperStr t
  if isPrefixList pkTok upper || isPrefixList (strL "UNIQUE KEY") upper
      || isPrefixList (strL "KEY") upper || isPrefixList (strL "CONSTRAINT") upper then
    none
  else
    some (commentStep upper (unsignedStep upper (autoIncStep upper l)))

/-- Split at newline characters, keeping a final empty piece. -/
def splitNL : List Char → List (List Char)
  | [] => [[]]
  | c :: rest =>
    if c == '\n' then [] :: splitNL rest
    else
      match splitNL rest with
      | h :: t2 => (c :: h) :: t2
      | [] => [[c]]

/-- Rust `str::lines`: split at newlines, dropping one final empty piece
produced by a trailing newline. -/
def linesOf (l : List Char) : List (List Char) :=
  if l.isEmpty then []
  else if endsWithChar l '\n' then (splitNL l).dropLast
  else splitNL l

/-- Join lines with newlines (Rust `Vec::join("\n")`). -/
def joinNL : List (List Char) → List Char
  | [] => []
  | [x] => x
  | x :: rest => x ++ '\n' :: joinNL rest

/-- The Schema Translator (src/main.rs lines 183-235), applied to a trimmed
statement that starts with CREATE TABLE: truncate after the last closing
parenthesis and re-append the semicolon, clean every line, rejoin, and
remove a dangling comma before the closing parenthesis. -/
def translateCreate (s : List Char) : List Char :=
  let s1 :=
    match rfindChar ')' s with
    | some pos => (s.take (pos + 1)) ++ [';']
    | none => s
  let cleaned := (linesOf s1).filterMap cleanLine
  let j := joinNL cleaned
  replaceAll (strL ",\n);") (strL "\n);") (replaceAll (strL ",\n)") (strL "\n)") j)

/-- A pattern with no nontrivial border: no proper nonempty prefix of it is
also a suffix.  Deleting the leftmost occurrences of such a pattern cannot be
confused by matches straddling an occurrence boundary. -/
def borderFree (p : List Char) : Prop :=
  ∀ k, k < p.length → 0 < k → p.take k ≠ p.drop (p.length - k)

/-- Claim C2: in live-connection mode the options actually passed to the pool do
not depend on the configured host, port, user, password or database: every
setter acts on a discarded clone of the builder, so any two configurations
yield the same pool options, namely the defaults of `OptsBuilder::new()`. -/
theorem poolOptsIndependentOfConfig :
    (∀ a1 a2 : Args, buildPoolOpts a1 = buildPoolOpts a2)
    ∧ (∀ a : Args, buildPoolOpts a = optsBuilderNew) := by
  constructor
  · intro a1 a2
    rfl
  · intro a
    rfl

/-- Claim C9: a table is processed (not skipped) iff the include list is empty or
contains it, and the exclude list does not contain it; concretely, with
an include list of a,b and an exclude list of b, table a is processed while
b and c are skipped. -/
theorem tableFilterCharacterisation :
    (∀ (args : Args) (t : String),
      shouldSkipTable args t = false ↔
        ((args.includeTables = [] ∨ t ∈ args.includeTables)
          ∧ t ∉ args.excludeTables))
    ∧ shouldSkipTable { includeTables := ["a", "b"], excludeTables := ["b"] } "a" = false
    ∧ shouldSkipTable { includeTables := ["a", "b"], excludeTables := ["b"] } "b" = true
    ∧ shouldSkipTable { includeTables := ["a", "b"], excludeTables := ["b"] } "c" = true := by
  refine ⟨?_, by decide, by decide, by decide⟩
  intro args t
  unfold shouldSkipTable
  by_cases he : args.includeTables = [] <;>
    by_cases hi : t ∈ args.includeTables <;>
      by_cases hx : t ∈ args.excludeTables <;>
        simp [he, hi, hx]

/-- Claim C8: the Type Mapper is a total deterministic function of the type name
and the JSON-as-text flag, agreeing with the case analysis of the spec: prefix
int maps to INTEGER, varchar/text to TEXT, json to TEXT exactly when the
flag is set, and every other name (such as DATETIME) to BLOB. -/
theorem typeMapperMatchesSpec :
    (∀ (ty : List Char) (flag : Bool), sqliteType ty flag = specTypeMap ty flag)
    ∧ sqliteType (strL "INT(11)") true = .integer
    ∧ sqliteType (strL "VARCHAR(255)") true = .text
    ∧ sqliteType (strL "JSON") true = .text
    ∧ sqliteType (strL "JSON") false = .blob
    ∧ sqliteType (strL "DATETIME") true = .blob := by
  refine ⟨?_, by decide, by decide, by decide, by decide, by decide⟩
  intro ty flag
  unfold sqliteType specTypeMap
  rcases h3 : isPrefixList (strL "json") (lowerStr ty) with _ | _ <;>
    rcases flag with _ | _ <;> simp [h3]

/-- Claim C6: on a byte-string value the coercer returns the UTF-8 decoding of the
bytes when they are valid UTF-8, and fails (producing no substitute value)
when they are not. -/
theorem byteStringDecodedOrFails :
    (∀ (bs : List Nat) (s : List Char),
      utf8Decode bs = some s → coerceValue (.bytes bs) = .ok (.text s))
    ∧ (∀ bs : List Nat, utf8Decode bs = none → coerceValue (.bytes bs) = .error ()) := by
  constructor
  · intro bs s h
    simp [coerceValue, h]
  · intro bs h
    simp [coerceValue, h]

/-- Witness for C6 at concrete inputs: the bytes of "hi" decode to the text
"hi", while the lone byte 0xFF and the truncated sequence 0xC3 0x28 are
invalid UTF-8 and make the coercion fail. -/
theorem byteStringDecodedOrFails_witness :
    utf8Decode [104, 105] = some (strL "hi")
    ∧ coerceValue (.bytes [104, 105]) = .ok (.text (strL "hi"))
    ∧ utf8Decode [255] = none
    ∧ coerceValue (.bytes [255]) = .error ()
    ∧ utf8Decode [195, 40] = none
    ∧ coerceValue (.bytes [195, 40]) = .error () :=
  ⟨by decide, byteStringDecodedOrFails.1 [104, 105] (strL "hi") (by decide),
   by decide, byteStringDecodedOrFails.2 [255] (by decide),
   by decide, byteStringDecodedOrFails.2 [195, 40] (by decide)⟩

/-- Claim C7: a date/time value coerces to a Text value in the zero-padded
24-hour format YYYY-MM-DD HH:MM:SS.mmm; in particular (2024,3,5,13,7,9,250)
coerces to the text "2024-03-05 13:07:09.250". -/
theorem dateCoercesToFormattedText :
    (∀ y mo d h mi s micro : Nat,
      coerceValue (.date y mo d h mi s micro) = .ok (.text (fmtDateTime y mo d h mi s micro)))
    ∧ coerceValue (.date 2024 3 5 13 7 9 250) = .ok (.text (strL "2024-03-05 13:07:09.250"))
    ∧ coerceValue (.date 5 1 2 3 4 5 6) = .ok (.text (strL "0005-01-02 03:04:05.006")) := by
  refine ⟨?_, by rfl, by rfl⟩
  intro y mo d h mi s micro
  rfl

/-- Claim C1 counterexample: in live-connection mode a failing insert does NOT
let the run continue with the next row.  With two rows where the insert of
row 0 fails, only row 0 is ever attempted and the error propagates; row 1
is never inserted. -/
theorem liveInsertFailureIsFatal_cex :
    runLiveInserts (fun r => if r = 0 then .error () else .ok ()) [0, 1] = ([0], some ())
    ∧ (runLiveInserts (fun r => if r = 0 then .error () else .ok ()) [0, 1]).1 ≠ [0, 1] := by
  constructor
  · rfl
  · decide

/-- Claim C1 amended: in dump mode every statement is attempted regardless of
earlier failures (a failing statement is logged with its SQL and error and
does not stop the following statements), whereas in live-connection mode a
failing row insert propagates its error, so the rows after it are never
attempted. -/
theorem dumpNonFatalLiveFatal :
    (∀ {S E : Type} (exec : S → Except E Unit) (stmts : List S),
      (runDumpStatements exec stmts).map Prod.fst = stmts)
    ∧ (∀ {R E : Type} (ins : R → Except E Unit) (r : R) (rest : List R) (e : E),
      ins r = .error e → runLiveInserts ins (r :: rest) = ([r], some e)) := by
  constructor
  · intro S E exec stmts
    induction stmts with
    | nil => rfl
    | cons s rest ih =>
      unfold runDumpStatements
      cases exec s <;> simp [ih]
  · intro R E ins r rest e h
    unfold runLiveInserts
    rw [h]

/-- Witness for C1 at a concrete input: the insert of row 5 fails, so the
loop over rows 5 and 7 attempts only row 5; the dump loop over three
statements with a failing middle statement still attempts all three. -/
theorem dumpNonFatalLiveFatal_witness :
    runLiveInserts (fun r => if r = 5 then .error () else .ok ()) (5 :: [7]) = ([5], some ())
    ∧ (runDumpStatements (fun s => if s = 1 then .error () else .ok ()) [0, 1, 2]).map Prod.fst
      = [0, 1, 2] :=
  ⟨dumpNonFatalLiveFatal.2 (fun r => if r = 5 then .error () else .ok ()) 5 [7] () rfl,
   dumpNonFatalLiveFatal.1 (fun s => if s = 1 then .error () else .ok ()) [0, 1, 2]⟩

/-- Claim C10: a noise line (empty after left-trimming, or starting with one of
the noise prefixes) is never appended to the statement buffer — processing
it leaves the buffer unchanged and emits nothing — and consequently the
statements emitted from any dump are exactly those emitted after deleting
every noise line, so noise lines never appear in any emitted statement. -/
theorem noiseLinesNeverEnterBuffer :
    (∀ (buf line : List Char), isNoiseLine line = true → processLine buf line = (buf, none))
    ∧ (∀ (ls : List (List Char)) (buf : List Char),
      runLines buf ls = runLines buf (ls.filter (fun l => !isNoiseLine l))) := by
  have h1 : ∀ (buf line : List Char), isNoiseLine line = true → processLine buf line = (buf, none) := by
    intro buf line h
    unfold processLine
    rw [h]
    simp
  refine ⟨h1, ?_⟩
  intro ls
  induction ls with
  | nil => intro buf; rfl
  | cons line rest ih =>
    intro buf
    rcases hn : isNoiseLine line with _ | _
    · have hf : (line :: rest).filter (fun l => !isNoiseLine l)
        = line :: rest.filter (fun l => !isNoiseLine l) := by
        simp [hn]
      rw [hf]
      rw [runLines, runLines]
      rcases hp : processLine buf line with ⟨b', o⟩
      cases o
      · exact ih b'
      · show _ :: runLines [] rest = _ :: runLines [] (rest.filter _)
        rw [ih []]
    · have hf : (line :: rest).filter (fun l => !isNoiseLine l)
        = rest.filter (fun l => !isNoiseLine l) := by
        simp [hn]
      rw [hf]
      rw [runLines, h1 buf line hn]
      exact ih buf

/-- Claim C3 counterexample: on the single physical line
CREATE TABLE t (id INT AUTO_INCREMENT, name VARCHAR(10) UNSIGNED, PRIMARY KEY (id));
the Schema Translator does NOT drop the PRIMARY KEY (id) declaration and
does NOT rewrite the id column to PRIMARY KEY AUTOINCREMENT: because the
whole statement is one line, the PRIMARY KEY clause shares the line with
CREATE TABLE, so the line-based rules misfire and instead append a stray
AUTOINCREMENT after the semicolon. -/
theorem singleLineCreateTableMistranslated_cex :
    translateCreate
        (strL "CREATE TABLE t (id INT AUTO_INCREMENT, name VARCHAR(10) UNSIGNED, PRIMARY KEY (id));")
      = strL "CREATE TABLE t (id INT , name VARCHAR(10) , PRIMARY KEY (id)); AUTOINCREMENT"
    ∧ containsSub
        (translateCreate
          (strL "CREATE TABLE t (id INT AUTO_INCREMENT, name VARCHAR(10) UNSIGNED, PRIMARY KEY (id));"))
        (strL "PRIMARY KEY (id)") = true
    ∧ containsSub
        (translateCreate
          (strL "CREATE TABLE t (id INT AUTO_INCREMENT, name VARCHAR(10) UNSIGNED, PRIMARY KEY (id));"))
        (strL "PRIMARY KEY AUTOINCREMENT") = false := by
  refine ⟨by rfl, by decide, by decide⟩

/-- Claim C3 amended: on the statement in its conventional multi-line dump form,
with each column definition and the PRIMARY KEY declaration on lines of
their own, the Schema Translator drops the PRIMARY KEY (id) line, rewrites
the id column to include PRIMARY KEY AUTOINCREMENT, removes UNSIGNED from
the name column, and leaves no dangling comma before the final closing
parenthesis. -/
theorem multiLineCreateTableTranslated :
    translateCreate
        (strL "CREATE TABLE t (\n  id INT AUTO_INCREMENT,\n  name VARCHAR(10) UNSIGNED,\n  PRIMARY KEY (id)\n);")
      = strL "CREATE TABLE t (\n  id INT  PRIMARY KEY AUTOINCREMENT,\n  name VARCHAR(10) \n);"
    ∧ containsSub
        (translateCreate
          (strL "CREATE TABLE t (\n  id INT AUTO_INCREMENT,\n  name VARCHAR(10) UNSIGNED,\n  PRIMARY KEY (id)\n);"))
        (strL "PRIMARY KEY (id)") = false
    ∧ containsSub
        (translateCreate
          (strL "CREATE TABLE t (\n  id INT AUTO_INCREMENT,\n  name VARCHAR(10) UNSIGNED,\n  PRIMARY KEY (id)\n);"))
        (strL "id INT  PRIMARY KEY AUTOINCREMENT") = true
    ∧ containsSub
        (translateCreate
          (strL "CREATE TABLE t (\n  id INT AUTO_INCREMENT,\n  name VARCHAR(10) UNSIGNED,\n  PRIMARY KEY (id)\n);"))
        unsTok = false
    ∧ containsSub
        (translateCreate
          (strL "CREATE TABLE t (\n  id INT AUTO_INCREMENT,\n  name VARCHAR(10) UNSIGNED,\n  PRIMARY KEY (id)\n);"))
        (strL ",\n)") = false := by
  refine ⟨by rfl, by decide, by decide, by decide, by decide⟩

/-- A pattern is a prefix of itself followed by anything. -/
theorem isPreAppend (p t : List Char) : isPrefixList p (p ++ t) = true := by
  induction p with
  | nil => rfl
  | cons c cs ih => simp [isPrefixList, ih]

/-- Boolean prefix test as an existential. -/
theorem isPreIff (p : List Char) : ∀ l, isPrefixList p l = true ↔ ∃ t, l = p ++ t := by
  induction p with
  | nil =>
    intro l
    simp [isPrefixList]
  | cons c cs ih =>
    intro l
    cases l with
    | nil =>
      simp [isPrefixList]
    | cons d ds =>
      simp only [isPrefixList, Bool.and_eq_true, beq_iff_eq, List.cons_append]
      constructor
      · rintro ⟨rfl, h⟩
        obtain ⟨t, rfl⟩ := (ih ds).mp h
        exact ⟨t, rfl⟩
      · rintro ⟨t, ht⟩
        injection ht with h1 h2
        exact ⟨h1.symm, (ih ds).mpr ⟨t, h2⟩⟩

/-- A prefix occurrence is an occurrence. -/
theorem isPreContains (p l : List Char) (h : isPrefixList p l = true) :
    containsSub l p = true := by
  cases l with
  | nil => exact h
  | cons c rest => simp [containsSub, h]

/-- No occurrence in a cons means no occurrence in its tail. -/
theorem containsConsFalse {c : Char} {l p : List Char}
    (h : containsSub (c :: l) p = false) : containsSub l p = false := by
  have h' : (isPrefixList p (c :: l) || containsSub l p) = false := h
  exact (Bool.or_eq_false_iff.mp h').2

/-- Skipping exactly the length of a consumed segment resumes the scan
right after it. -/
theorem raGoSkip (pat rep : List Char) :
    ∀ (x rest : List Char), raGo pat rep (x ++ rest) x.length = raGo pat rep rest 0 := by
  intro x
  induction x with
  | nil => intro rest; rfl
  | cons c cs ih =>
    intro rest
    rw [List.cons_append]
    rw [show (c :: cs).length = cs.length + 1 from rfl]
    rw [raGo]
    exact ih rest

/-- A text without any occurrence of the pattern is left unchanged. -/
theorem raGoNoMatch (pat rep : List Char) :
    ∀ l, containsSub l pat = false → raGo pat rep l 0 = l := by
  intro l
  induction l with
  | nil => intro _; rfl
  | cons c rest ih =>
    intro h
    have h' : (isPrefixList pat (c :: rest) || containsSub rest pat) = false := h
    have h1 : isPrefixList pat (c :: rest) = false := (Bool.or_eq_false_iff.mp h').1
    have h2 : containsSub rest pat = false := (Bool.or_eq_false_iff.mp h').2
    rw [raGo, h1]
    simp [ih h2]

/-- Deleting the single occurrence of a border-free pattern: when neither
side contains the pattern, the left-to-right scan removes exactly the
middle occurrence. -/
theorem raGoSingle (pat : List Char) (hbf : borderFree pat) (hne : pat ≠ []) :
    ∀ (a b : List Char), containsSub a pat = false → containsSub b pat = false →
      raGo pat [] (a ++ (pat ++ b)) 0 = a ++ b := by
  intro a
  induction a with
  | nil =>
    intro b _ hb
    rcases hp : pat with _ | ⟨q, qt⟩
    · exact absurd hp hne
    · rw [List.nil_append, List.nil_append]
      rw [List.cons_append]
      rw [raGo]
      have hpre : isPrefixList (q :: qt) (q :: (qt ++ b)) = true := by
        have := isPreAppend (q :: qt) b
        rwa [List.cons_append] at this
      rw [hpre]
      have e1 : raGo (q :: qt) [] (qt ++ b) qt.length = raGo (q :: qt) [] b 0 :=
        raGoSkip (q :: qt) [] qt b
      have e2 : raGo (q :: qt) [] b 0 = b := raGoNoMatch (q :: qt) [] b (hp ▸ hb)
      simp [show (q :: qt).length - 1 = qt.length from rfl, e1, e2]
  | cons c a' ih =>
    intro b ha hb
    have ha' : containsSub a' pat = false := containsConsFalse ha
    have hguard : isPrefixList pat ((c :: a') ++ (pat ++ b)) = false := by
      rcases hx : isPrefixList pat ((c :: a') ++ (pat ++ b)) with _ | _
      · rfl
      · exfalso
        obtain ⟨t, ht⟩ := (isPreIff pat _).mp hx
        rcases List.append_eq_append_iff.mp ht with ⟨w, hw1, hw2⟩ | ⟨w, hw1, hw2⟩
        · rcases hwe : w with _ | ⟨d, ds⟩
          · subst hwe
            rw [List.append_nil] at hw1
            have : isPrefixList pat (c :: a') = true := by
              have h0 := isPreAppend pat []
              rw [List.append_nil] at h0
              rw [hw1]
              rw [hw1] at h0
              exact h0
            have := isPreContains pat (c :: a') this
            rw [this] at ha
            exact absurd ha (by simp)
          · subst hwe
            rcases List.append_eq_append_iff.mp hw2 with ⟨v, hv1, hv2⟩ | ⟨v, hv1, hv2⟩
            · have l1 : pat.length = (c :: a').length + (d :: ds).length := by
                rw [hw1, List.length_append]
              have l2 : (d :: ds).length = pat.length + v.length := by
                rw [hv1, List.length_append]
              simp only [List.length_cons] at l1 l2
              omega
            · have hlt : (d :: ds).length < pat.length := by
                have l1 : pat.length = (c :: a').length + (d :: ds).length := by
                  rw [hw1, List.length_append]
                simp only [List.length_cons] at l1 ⊢
                omega
              have hpos : 0 < (d :: ds).length := by simp
              have htake : pat.take (d :: ds).length = d :: ds := by
                rw [hv1]
                exact List.take_left (d :: ds) v
              have hdrop : pat.drop (pat.length - (d :: ds).length) = d :: ds := by
                have l1 : pat.length - (d :: ds).length = (c :: a').length := by
                  have : pat.length = (c :: a').length + (d :: ds).length := by
                    rw [hw1, List.length_append]
                  omega
                rw [l1, hw1]
                exact List.drop_left (c :: a') (d :: ds)
              exact hbf (d :: ds).length hlt hpos (htake.trans hdrop.symm)
        · have hprew : isPrefixList pat (pat ++ w) = true := isPreAppend pat w
          rw [← hw1] at hprew
          have := isPreContains pat (c :: a') hprew
          rw [this] at ha
          exact absurd ha (by simp)
    rw [List.cons_append]
    rw [raGo]
    rw [List.cons_append] at hguard
    rw [hguard]
    simp [ih b ha' hb]

/-- dropWhile distributes over append when something of the first part
survives. -/
theorem dropWhileAppendNe (p : Char → Bool) :
    ∀ (a b : List Char), a.dropWhile p ≠ [] → (a ++ b).dropWhile p = a.dropWhile p ++ b := by
  intro a
  induction a with
  | nil => intro b h; exact absurd rfl h
  | cons c a' ih =>
    intro b h
    rw [List.cons_append, List.dropWhile_cons, List.dropWhile_cons]
    by_cases hx : p c = true
    · rw [if_pos hx, if_pos hx]
      apply ih b
      rw [List.dropWhile_cons, if_pos hx] at h
      exact h
    · rw [if_neg hx, if_neg hx, List.cons_append]

/-- dropWhile skips the whole first part when it is consumed entirely. -/
theorem dropWhileAppendNil (p : Char → Bool) :
    ∀ (a b : List Char), a.dropWhile p = [] → (a ++ b).dropWhile p = b.dropWhile p := by
  intro a
  induction a with
  | nil => intro b _; rfl
  | cons c a' ih =>
    intro b h
    rw [List.dropWhile_cons] at h
    by_cases hx : p c = true
    · rw [if_pos hx] at h
      rw [List.cons_append, List.dropWhile_cons, if_pos hx]
      exact ih b h
    · rw [if_neg hx] at h
      exact absurd h (by simp)

/-- Right-trimming an append whose right part does not vanish. -/
theorem trimEndAppendNe (x y : List Char) (hy : trimEnd y ≠ []) :
    trimEnd (x ++ y) = x ++ trimEnd y := by
  unfold trimEnd at *
  have hy' : y.reverse.dropWhile isWS ≠ [] := by
    intro hc
    rw [hc] at hy
    exact hy rfl
  rw [List.reverse_append]
  rw [dropWhileAppendNe isWS y.reverse x.reverse hy']
  rw [List.reverse_append, List.reverse_reverse]

/-- Right-trimming an append whose right part is all whitespace. -/
theorem trimEndAppendNil (x y : List Char) (hy : trimEnd y = []) :
    trimEnd (x ++ y) = trimEnd x := by
  unfold trimEnd at *
  have hy' : y.reverse.dropWhile isWS = [] := by
    have h2 := congrArg List.reverse hy
    rw [List.reverse_reverse] at h2
    simpa using h2
  rw [List.reverse_append, dropWhileAppendNil isWS y.reverse x.reverse hy']

/-- The last element of an append with a nonempty right part. -/
theorem getLastQAppend (x y : List Char) (hy : y ≠ []) :
    (x ++ y).getLast? = y.getLast? := by
  induction x with
  | nil => rfl
  | cons c x' ih =>
    rw [List.cons_append]
    rcases hxy : x' ++ y with _ | ⟨d, ds⟩
    · exact absurd (List.append_eq_nil.mp hxy).2 hy
    · rw [List.getLast?_cons_cons, ← hxy]
      exact ih

/-- AUTO_INCREMENT has no nontrivial border. -/
theorem aiTokBorderFree : borderFree aiTok := by
  unfold borderFree
  decide

/-- UNSIGNED has no nontrivial border. -/
theorem unsTokBorderFree : borderFree unsTok := by
  unfold borderFree
  decide

/-- Removing the unique uppercase AUTO_INCREMENT occurrence. -/
theorem replaceAllAI (a b : List Char) (ha : containsSub a aiTok = false)
    (hb : containsSub b aiTok = false) :
    replaceAll aiTok [] (a ++ aiTok ++ b) = a ++ b := by
  unfold replaceAll
  rw [List.append_assoc]
  exact raGoSingle aiTok aiTokBorderFree (by decide) a b ha hb

/-- Removing the unique uppercase UNSIGNED occurrence. -/
theorem replaceAllUNS (a b : List Char) (ha : containsSub a unsTok = false)
    (hb : containsSub b unsTok = false) :
    replaceAll unsTok [] (a ++ unsTok ++ b) = a ++ b := by
  unfold replaceAll
  rw [List.append_assoc]
  exact raGoSingle unsTok unsTokBorderFree (by decide) a b ha hb

/-- A text ending in an explicit comma passes the trailing-comma test. -/
theorem hTCAppendComma (x : List Char) : hasTrailingComma (x ++ [',']) = true := by
  unfold hasTrailingComma
  rw [trimEndAppendNe x [','] (by decide)]
  unfold endsWithChar
  rw [getLastQAppend x (trimEnd [',']) (by decide)]
  rfl

/-- Deleting a token that neither ends in whitespace nor in a comma keeps
the trailing-comma test unchanged. -/
theorem hTCThroughTok (tok : List Char) (hne : tok ≠ []) (hte : trimEnd tok = tok)
    (hcomma : endsWithChar tok ',' = false) :
    ∀ (a b : List Char),
      hasTrailingComma (a ++ (tok ++ b)) = true → hasTrailingComma (a ++ b) = true := by
  intro a b h
  unfold hasTrailingComma at *
  by_cases hy : trimEnd b = []
  · have h1 : trimEnd (tok ++ b) = tok := by rw [trimEndAppendNil tok b hy, hte]
    have h2 : trimEnd (a ++ (tok ++ b)) = a ++ tok := by
      rw [trimEndAppendNe a (tok ++ b) (by rw [h1]; exact hne), h1]
    rw [h2] at h
    unfold endsWithChar at h hcomma
    rw [getLastQAppend a tok hne] at h
    rw [hcomma] at h
    exact absurd h (by simp)
  · have h1 : trimEnd (tok ++ b) = tok ++ trimEnd b := trimEndAppendNe tok b hy
    have hne1 : trimEnd (tok ++ b) ≠ [] := by
      rw [h1]
      intro hc
      exact hne (List.append_eq_nil.mp hc).1
    have h2 : trimEnd (a ++ (tok ++ b)) = a ++ (tok ++ trimEnd b) := by
      rw [trimEndAppendNe a (tok ++ b) hne1, h1]
    rw [h2] at h
    rw [trimEndAppendNe a b hy]
    unfold endsWithChar at h ⊢
    rw [getLastQAppend a (tok ++ trimEnd b)
      (by intro hc; exact hne (List.append_eq_nil.mp hc).1)] at h
    rw [getLastQAppend tok (trimEnd b) hy] at h
    rw [getLastQAppend a (trimEnd b) hy]
    exact h

/-- Claim C4 counterexample: on the line "  id int auto_increment," the token is
spelled in lowercase; the rewrite is triggered (the detection runs on the
uppercased line) and appends PRIMARY KEY AUTOINCREMENT, but the replace
call scans the original line for the uppercase literal AUTO_INCREMENT and
thus removes nothing: the token is still present in the output. -/
theorem autoIncLowercaseKept_cex :
    autoIncStep (upperStr (trimStart (strL "  id int auto_increment,")))
        (strL "  id int auto_increment,")
      = strL "  id int auto_increment PRIMARY KEY AUTOINCREMENT,"
    ∧ containsSub (strL "  id int auto_increment PRIMARY KEY AUTOINCREMENT,")
        (strL "auto_increment") = true
    ∧ containsSub
        (upperStr (strL "  id int auto_increment PRIMARY KEY AUTOINCREMENT,")) aiTok
      = true := by
  refine ⟨by rfl, by decide, by decide⟩

/-- Claim C4 amended: for a line containing the token AUTO_INCREMENT, only its
uppercase spelling is removed (the occurrence is deleted and nothing else
of the line changes); if the (uppercased) line does not declare
PRIMARY KEY, the rewrite strips trailing commas and appends
" PRIMARY KEY AUTOINCREMENT"; if it declares PRIMARY KEY but not
AUTOINCREMENT it likewise appends " AUTOINCREMENT"; and a trailing comma
present before the rewrite is present after it.  The line is given as
a ++ AUTO_INCREMENT ++ b with the uppercase token occurring nowhere else. -/
theorem autoIncRewriteCharacterised (upper a b : List Char)
    (hg : containsSub upper aiTok = true)
    (ha : containsSub a aiTok = false)
    (hb : containsSub b aiTok = false) :
    (containsSub upper pkTok = false →
      autoIncStep upper (a ++ aiTok ++ b)
        = (if hasTrailingComma (a ++ aiTok ++ b) then
            trimEndCommas (a ++ b) ++ pkaiApp ++ [',']
           else trimEndCommas (a ++ b) ++ pkaiApp))
    ∧ (containsSub upper pkTok = true → containsSub upper aincTok = false →
      autoIncStep upper (a ++ aiTok ++ b)
        = (if hasTrailingComma (a ++ aiTok ++ b) then
            trimEndCommas (a ++ b) ++ aincApp ++ [',']
           else trimEndCommas (a ++ b) ++ aincApp))
    ∧ (containsSub upper pkTok = true → containsSub upper aincTok = true →
      autoIncStep upper (a ++ aiTok ++ b) = a ++ b)
    ∧ (hasTrailingComma (a ++ aiTok ++ b) = true →
      hasTrailingComma (autoIncStep upper (a ++ aiTok ++ b)) = true) := by
  have hrepl : replaceAll aiTok [] (a ++ (aiTok ++ b)) = a ++ b := by
    rw [← List.append_assoc]
    exact replaceAllAI a b ha hb
  have e1 : containsSub upper pkTok = false →
      autoIncStep upper (a ++ aiTok ++ b)
        = (if hasTrailingComma (a ++ aiTok ++ b) then
            trimEndCommas (a ++ b) ++ pkaiApp ++ [',']
           else trimEndCommas (a ++ b) ++ pkaiApp) := by
    intro hpk
    simp [autoIncStep, hg, hpk, hrepl]
  have e2 : containsSub upper pkTok = true → containsSub upper aincTok = false →
      autoIncStep upper (a ++ aiTok ++ b)
        = (if hasTrailingComma (a ++ aiTok ++ b) then
            trimEndCommas (a ++ b) ++ aincApp ++ [',']
           else trimEndCommas (a ++ b) ++ aincApp) := by
    intro hpk hainc
    simp [autoIncStep, hg, hpk, hainc, hrepl]
  have e3 : containsSub upper pkTok = true → containsSub upper aincTok = true →
      autoIncStep upper (a ++ aiTok ++ b) = a ++ b := by
    intro hpk hainc
    simp [autoIncStep, hg, hpk, hainc, hrepl]
  refine ⟨e1, e2, e3, ?_⟩
  intro hc
  rcases hpk : containsSub upper pkTok with _ | _
  · rw [e1 hpk, if_pos hc]
    exact hTCAppendComma (trimEndCommas (a ++ b) ++ pkaiApp)
  · rcases hainc : containsSub upper aincTok with _ | _
    · rw [e2 hpk hainc, if_pos hc]
      exact hTCAppendComma (trimEndCommas (a ++ b) ++ aincApp)
    · rw [e3 hpk hainc]
      rw [List.append_assoc] at hc
      exact hTCThroughTok aiTok (by decide) (by decide) (by decide) a b hc

/-- Witness for C4 at a concrete line: "  id INT AUTO_INCREMENT," (upper
case token, trailing comma, no PRIMARY KEY) rewrites to
"  id INT  PRIMARY KEY AUTOINCREMENT,". -/
theorem autoIncRewriteCharacterised_witness :
    autoIncStep (strL "ID INT AUTO_INCREMENT,") (strL "  id INT " ++ aiTok ++ strL ",")
      = (if hasTrailingComma (strL "  id INT " ++ aiTok ++ strL ",") then
          trimEndCommas (strL "  id INT " ++ strL ",") ++ pkaiApp ++ [',']
         else trimEndCommas (strL "  id INT " ++ strL ",") ++ pkaiApp) :=
  (autoIncRewriteCharacterised (strL "ID INT AUTO_INCREMENT,") (strL "  id INT ")
    (strL ",") (by decide) (by decide) (by decide)).1 (by decide)

/-- Claim C5 counterexample: the line "  price int unsigned," contains the token
UNSIGNED in lowercase; the per-line cleaning of the Schema Translator detects it
on the uppercased line but the replace call removes only the uppercase
literal, so the output line still contains the token. -/
theorem unsignedLowercaseKept_cex :
    cleanLine (strL "  price int unsigned,") = some (strL "  price int unsigned,")
    ∧ containsSub (upperStr (strL "  price int unsigned,")) unsTok = true
    ∧ containsSub (strL "  price int unsigned,") (strL "unsigned") = true := by
  refine ⟨by rfl, by decide, by decide⟩

/-- Claim C5 amended: the UNSIGNED removal step deletes the uppercase spelling of
the token from the line (occurrences in other letter cases trigger the
rewrite but stay in place): for a line a ++ UNSIGNED ++ b whose sides do
not contain the uppercase token, the step returns a ++ b. -/
theorem unsignedRemovalCharacterised (upper a b : List Char)
    (hg : containsSub upper unsTok = true)
    (ha : containsSub a unsTok = false)
    (hb : containsSub b unsTok = false) :
    unsignedStep upper (a ++ unsTok ++ b) = a ++ b := by
  have hrepl : replaceAll unsTok [] (a ++ unsTok ++ b) = a ++ b := replaceAllUNS a b ha hb
  simp only [unsignedStep, hg, if_true, hrepl]

/-- Witness for C5 at a concrete line: "  price int UNSIGNED," loses the
uppercase token and keeps the rest of the line. -/
theorem unsignedRemovalCharacterised_witness :
    unsignedStep (strL "PRICE INT UNSIGNED,") (strL "  price int " ++ unsTok ++ strL ",")
      = strL "  price int " ++ strL "," :=
  unsignedRemovalCharacterised (strL "PRICE INT UNSIGNED,") (strL "  price int ")
    (strL ",") (by decide) (by decide) (by decide)

/-- Witness for C10 at a concrete input: a comment line leaves a partially
filled statement buffer untouched, and filtering noise lines out of a
small dump does not change the emitted statements. -/
theorem noiseLinesNeverEnterBuffer_witness :
    processLine (strL "CREATE TABLE t (") (strL "-- a comment")
      = (strL "CREATE TABLE t (", none)
    ∧ runLines [] [strL "-- x", strL "SELECT 1;"]
      = runLines [] ([strL "-- x", strL "SELECT 1;"].filter (fun l => !isNoiseLine l)) :=
  ⟨noiseLinesNeverEnterBuffer.1 (strL "CREATE TABLE t (") (strL "-- a comment") (by decide),
   noiseLinesNeverEnterBuffer.2 [strL "-- x", strL "SELECT 1;"] []⟩

